import Mathlib

/-!
Verification of the `EscadraString` hybrid string value from
`src/general/escadra_string.rs`.

The Rust type is

  union CharPointer { chars: [u8; 16], pointer: *mut u8 }
  #[repr(C)]
  pub struct EscadraString { string: CharPointer, length: u64, max_length: u64 }

The union is discriminated by `max_length`: the `chars` view is active when
`max_length` is 15 (the only non-heap value the code ever produces) and the
`pointer` view is active when `max_length > 15`.  The embedding splits the
union into its two views (`chars` and `heap`) because the code never reads
one view after writing the other while that other view is the active one;
the heap allocation is modelled by the list of bytes the code actually
writes into it (`heap`) together with the byte size of the allocation
(`heapSize`).  Rust byte strings (`&String` / `&str`) are modelled as
`List Nat` of their UTF-8 bytes.
-/

namespace Highfleet

/-- Is `b` a UTF-8 continuation byte (`0x80..0xBF`)?  Part of the model of
`std::str::from_utf8`. -/
def isCont (b : Nat) : Bool := 0x80 ≤ b && b ≤ 0xBF

/-- UTF-8 validity of a byte sequence, as checked by `std::str::from_utf8`
(RFC 3629: no overlong forms, no surrogates, no code points above U+10FFFF). -/
def utf8Valid : List Nat → Bool
  | [] => true
  | b :: rest =>
    if b ≤ 0x7F then
      utf8Valid rest
    else if 0xC2 ≤ b && b ≤ 0xDF then
      match rest with
      | c1 :: rest1 => isCont c1 && utf8Valid rest1
      | [] => false
    else if 0xE0 ≤ b && b ≤ 0xEF then
      match rest with
      | c1 :: c2 :: rest2 =>
        (if b = 0xE0 then 0xA0 ≤ c1 && c1 ≤ 0xBF
         else if b = 0xED then 0x80 ≤ c1 && c1 ≤ 0x9F
         else isCont c1) && isCont c2 && utf8Valid rest2
      | _ => false
    else if 0xF0 ≤ b && b ≤ 0xF4 then
      match rest with
      | c1 :: c2 :: c3 :: rest3 =>
        (if b = 0xF0 then 0x90 ≤ c1 && c1 ≤ 0xBF
         else if b = 0xF4 then 0x80 ≤ c1 && c1 ≤ 0x8F
         else isCont c1) && isCont c2 && isCont c3 && utf8Valid rest3
      | _ => false
    else
      false

/-- `std::str::from_utf8(buf).unwrap()`: returns the bytes viewed as a `&str`
when they are valid UTF-8; `none` models the `unwrap` panic on invalid input. -/
def utf8Decode (b : List Nat) : Option (List Nat) :=
  if utf8Valid b then some b else none

/-- The state of an `EscadraString`.  `chars` is the inline 16-byte buffer
view of the union, `heap` the initialized bytes of the heap allocation the
`pointer` view points to, `heapSize` the byte size of that allocation
(`libc::malloc(size)`), and `length` / `max_length` the two `u64` fields. -/
structure EscadraString where
  chars : List Nat
  heap : List Nat
  heapSize : Nat
  length : Nat
  max_length : Nat
  deriving Repr, DecidableEq

/-- `EscadraString::new`: zero-filled inline buffer, `length = 0`,
`max_length = 15`.  No allocation, so `heap`/`heapSize` are empty. -/
def EscadraString.new : EscadraString :=
  { chars := List.replicate 16 0
    heap := []
    heapSize := 0
    length := 0
    max_length := 15 }

/-- The growth loop of `set_string`:
`let mut size = max_length + 1; while size <= string.len() { size *= 2; }`.
In the source `size` starts at `max_length + 1 ≥ 16 > 0`; the `0 < size`
conjunct (vacuous on every reachable input) makes the loop terminating for
the degenerate `size = 0` as well. -/
def growSize (size len : Nat) : Nat :=
  if h : 0 < size ∧ size ≤ len then
    growSize (2 * size) len
  else
    size
termination_by len + 1 - size
decreasing_by
  obtain ⟨h1, h2⟩ := h
  omega

/-- `EscadraString::set_string`.  Reallocation path when the instance is
heap-backed (`max_length > 15`) or the new content exceeds 15 bytes: the old
allocation (if any) is freed, `size` bytes are allocated, the content plus a
terminating zero byte are written, and `max_length` becomes `size - 1`.
Inline path: a zeroed 16-byte buffer receives the content. -/
def EscadraString.set_string (self : EscadraString) (string : List Nat) :
    EscadraString :=
  if 15 < self.max_length ∨ 15 < string.length then
    let size := growSize (self.max_length + 1) string.length
    { self with
        heap := string ++ [0]
        heapSize := size
        max_length := size - 1
        length := string.length }
  else
    { self with
        chars := string ++ List.replicate (16 - string.length) 0
        length := string.length }

/-- `EscadraString::get_string`: reads `length` bytes from the active storage
(`pointer` when `max_length > 15`, else `chars`) and decodes them with
`std::str::from_utf8(..).unwrap()`; `none` models the panic on invalid bytes. -/
def EscadraString.get_string (self : EscadraString) : Option (List Nat) :=
  if 15 < self.max_length then
    utf8Decode (self.heap.take self.length)
  else
    utf8Decode (self.chars.take self.length)

/-- The storage is heap-backed exactly when `max_length > 15` (the `pointer`
view of the union is the active one). -/
def EscadraString.isHeapBacked (self : EscadraString) : Bool :=
  15 < self.max_length

/-- The bytes of the active storage in the range `[0, length)`. -/
def EscadraString.activeBytes (self : EscadraString) : List Nat :=
  if 15 < self.max_length then
    self.heap.take self.length
  else
    self.chars.take self.length

/-- Terminator invariant: the byte at offset `length` within the active
storage is `0`. -/
def EscadraString.terminatorOk (self : EscadraString) : Prop :=
  if 15 < self.max_length then
    self.heap[self.length]? = some 0
  else
    self.chars[self.length]? = some 0

/-- `impl From<String> for EscadraString`: construct empty, then set. -/
def fromString (value : List Nat) : EscadraString :=
  EscadraString.new.set_string value

/-- `impl From<EscadraString> for String`: `val.get_string().to_string()`
(`none` models a panic inside `get_string`). -/
def intoString (val : EscadraString) : Option (List Nat) :=
  val.get_string

/-- `impl PartialEq for EscadraString`:
`self.get_string() == other.get_string()`; `none` models a panic inside
either `get_string` call. -/
def esEq (a b : EscadraString) : Option Bool :=
  match a.get_string, b.get_string with
  | some x, some y => some (x == y)
  | _, _ => none

/-- Lexicographic byte order, the documented behavior of `str::cmp`. -/
def lexCmp : List Nat → List Nat → Ordering
  | [], [] => .eq
  | [], _ :: _ => .lt
  | _ :: _, [] => .gt
  | a :: as_, b :: bs =>
    if a < b then .lt
    else if b < a then .gt
    else lexCmp as_ bs

/-- `impl Ord for EscadraString`: `self.get_string().cmp(other.get_string())`. -/
def esCmp (a b : EscadraString) : Option Ordering :=
  match a.get_string, b.get_string with
  | some x, some y => some (lexCmp x y)
  | _, _ => none

/-- `impl Hash for EscadraString` feeds exactly `self.get_string()` to the
hasher; this is the data the hash is computed from. -/
def esHashInput (a : EscadraString) : Option (List Nat) :=
  a.get_string

/-! ### Concrete values used to instantiate the theorems -/

/-- 16 ASCII bytes (the test string "BananBananBanana"), one byte past the
inline threshold. -/
def longBytesEx : List Nat :=
  [66, 97, 110, 97, 110, 66, 97, 110, 97, 110, 66, 97, 110, 97, 110, 97]

/-- 3 ASCII bytes ("Ban"), comfortably inline. -/
def shortBytesEx : List Nat := [66, 97, 110]

/-- 17 bytes of valid UTF-8 with an interior zero byte. -/
def zeroBytesEx : List Nat :=
  [65, 0, 66, 67, 68, 69, 70, 71, 72, 73, 74, 75, 76, 77, 78, 79, 80]

/-- A structurally well-formed state whose single stored byte `0xFF` is not
valid UTF-8: the representation-corruption scenario of the spec. -/
def corruptEs : EscadraString :=
  { chars := 255 :: List.replicate 15 0
    heap := []
    heapSize := 0
    length := 1
    max_length := 15 }

/-- A heap-backed state holding the same content as
`fromString shortBytesEx`, but in the `pointer` representation. -/
def heapBanEx : EscadraString :=
  { chars := List.replicate 16 0
    heap := [66, 97, 110, 0]
    heapSize := 32
    length := 3
    max_length := 31 }

/-! ### Properties of the growth loop -/

theorem growSize_gt (size len : Nat) : 0 < size → len < growSize size len := by
  induction size, len using growSize.induct with
  | case1 size len hc ih =>
    intro h
    rw [growSize, dif_pos hc]
    exact ih (by omega)
  | case2 size len hc =>
    intro h
    rw [growSize, dif_neg hc]
    omega

theorem growSize_le (size len : Nat) : size ≤ growSize size len := by
  induction size, len using growSize.induct with
  | case1 size len hc ih =>
    rw [growSize, dif_pos hc]
    omega
  | case2 size len hc =>
    rw [growSize, dif_neg hc]

theorem growSize_form (size len : Nat) : ∃ k, growSize size len = size * 2 ^ k := by
  induction size, len using growSize.induct with
  | case1 size len hc ih =>
    obtain ⟨k, hk⟩ := ih
    refine ⟨k + 1, ?_⟩
    rw [growSize, dif_pos hc, hk]
    ring
  | case2 size len hc =>
    refine ⟨0, ?_⟩
    rw [growSize, dif_neg hc]
    ring

theorem growSize_le_pow (size len : Nat) :
    ∀ k, 0 < size → len < size * 2 ^ k → growSize size len ≤ size * 2 ^ k := by
  induction size, len using growSize.induct with
  | case1 size len hc ih =>
    intro k hpos hk
    match k with
    | 0 =>
      obtain ⟨h1, h2⟩ := hc
      simp at hk
      omega
    | k' + 1 =>
      rw [growSize, dif_pos hc]
      have h2k : len < 2 * size * 2 ^ k' := by
        have : size * 2 ^ (k' + 1) = 2 * size * 2 ^ k' := by ring
        omega
      have hle := ih k' (by omega) h2k
      calc growSize (2 * size) len ≤ 2 * size * 2 ^ k' := hle
        _ = size * 2 ^ (k' + 1) := by ring
  | case2 size len hc =>
    intro k hpos hk
    have h2 : 0 < 2 ^ k := Nat.pos_pow_of_pos k (by omega)
    rw [growSize, dif_neg hc]
    calc size = size * 1 := by ring
      _ ≤ size * 2 ^ k := Nat.mul_le_mul_left size h2

/-! ### Field-level description of `set_string` on each path -/

theorem set_string_heap_max (s : EscadraString) (b : List Nat)
    (hp : 15 < s.max_length ∨ 15 < b.length) :
    (s.set_string b).max_length = growSize (s.max_length + 1) b.length - 1 := by
  rw [EscadraString.set_string, if_pos hp]

theorem set_string_heap_heap (s : EscadraString) (b : List Nat)
    (hp : 15 < s.max_length ∨ 15 < b.length) :
    (s.set_string b).heap = b ++ [0] := by
  rw [EscadraString.set_string, if_pos hp]

theorem set_string_heap_size (s : EscadraString) (b : List Nat)
    (hp : 15 < s.max_length ∨ 15 < b.length) :
    (s.set_string b).heapSize = growSize (s.max_length + 1) b.length := by
  rw [EscadraString.set_string, if_pos hp]

theorem set_string_inline_chars (s : EscadraString) (b : List Nat)
    (hp : ¬(15 < s.max_length ∨ 15 < b.length)) :
    (s.set_string b).chars = b ++ List.replicate (16 - b.length) 0 := by
  rw [EscadraString.set_string, if_neg hp]

theorem set_string_inline_max (s : EscadraString) (b : List Nat)
    (hp : ¬(15 < s.max_length ∨ 15 < b.length)) :
    (s.set_string b).max_length = s.max_length := by
  rw [EscadraString.set_string, if_neg hp]

theorem set_string_length (s : EscadraString) (b : List Nat) :
    (s.set_string b).length = b.length := by
  rw [EscadraString.set_string]
  by_cases hp : 15 < s.max_length ∨ 15 < b.length
  · rw [if_pos hp]
  · rw [if_neg hp]

/-- On the reallocation path the resulting `max_length` always exceeds 15:
the instance is (still) heap-backed afterwards. -/
theorem max_length_set_string_gt (s : EscadraString) (b : List Nat)
    (hp : 15 < s.max_length ∨ 15 < b.length) :
    15 < (s.set_string b).max_length := by
  rw [set_string_heap_max s b hp]
  have h1 := growSize_le (s.max_length + 1) b.length
  have h2 := growSize_gt (s.max_length + 1) b.length (by omega)
  omega

/-- After `set_string` with UTF-8-valid content, `get_string` returns exactly
that content (on either path, from any starting state). -/
theorem get_string_set_string (s : EscadraString) (b : List Nat)
    (hv : utf8Valid b = true) :
    (s.set_string b).get_string = some b := by
  rw [EscadraString.get_string]
  by_cases hp : 15 < s.max_length ∨ 15 < b.length
  · rw [if_pos (max_length_set_string_gt s b hp), set_string_heap_heap s b hp,
      set_string_length s b, List.take_left, utf8Decode, if_pos hv]
  · have hmax := set_string_inline_max s b hp
    rw [if_neg (by rw [hmax]; exact fun h => hp (Or.inl h)),
      set_string_inline_chars s b hp, set_string_length s b, List.take_left,
      utf8Decode, if_pos hv]

theorem utf8Decode_some {x y : List Nat} (h : utf8Decode x = some y) :
    utf8Valid y = true ∧ y = x := by
  rw [utf8Decode] at h
  by_cases hv : utf8Valid x = true
  · rw [if_pos hv] at h
    cases h
    exact ⟨hv, rfl⟩
  · rw [if_neg hv] at h
    cases h

/-- A successful `get_string` only ever returns UTF-8-valid bytes. -/
theorem get_string_some_valid {v : EscadraString} {b : List Nat}
    (h : v.get_string = some b) : utf8Valid b = true := by
  rw [EscadraString.get_string] at h
  by_cases hc : 15 < v.max_length
  · rw [if_pos hc] at h
    exact (utf8Decode_some h).1
  · rw [if_neg hc] at h
    exact (utf8Decode_some h).1

theorem lexCmp_eq_iff (x y : List Nat) : lexCmp x y = Ordering.eq ↔ x = y := by
  induction x generalizing y with
  | nil => cases y <;> simp [lexCmp]
  | cons a as_ ih =>
    cases y with
    | nil => simp [lexCmp]
    | cons b bs =>
      simp only [lexCmp]
      rcases Nat.lt_trichotomy a b with h | h | h
      · rw [if_pos h]
        simp
        omega
      · subst h
        rw [if_neg (by omega), if_neg (by omega)]
        simp [ih]
      · rw [if_neg (by omega), if_pos h]
        simp
        omega

theorem new_max_length : EscadraString.new.max_length = 15 := rfl

/-! ### The claims -/

/-- C1: for every UTF-8-valid byte sequence `b`, after `set_string b` on a
fresh empty `EscadraString`, `get_string` returns `b`; if `b` has at most 15
bytes the capacity (`max_length`) is 15 and storage is inline, and if it is
longer the capacity is at least `b.length` and storage is heap-backed. -/
theorem C1_fresh_set_string_get_string (b : List Nat) (hv : utf8Valid b = true) :
    (EscadraString.new.set_string b).get_string = some b ∧
    (b.length ≤ 15 →
      (EscadraString.new.set_string b).max_length = 15 ∧
      (EscadraString.new.set_string b).isHeapBacked = false) ∧
    (15 < b.length →
      b.length ≤ (EscadraString.new.set_string b).max_length ∧
      (EscadraString.new.set_string b).isHeapBacked = true) := by
  refine ⟨get_string_set_string _ _ hv, ?_, ?_⟩
  · intro hb
    have hp : ¬(15 < EscadraString.new.max_length ∨ 15 < b.length) := by
      rw [new_max_length]
      omega
    have hmax := set_string_inline_max _ _ hp
    constructor
    · rw [hmax, new_max_length]
    · simp only [EscadraString.isHeapBacked, hmax, new_max_length,
        decide_eq_false_iff_not]
      omega
  · intro hb
    have hp : 15 < EscadraString.new.max_length ∨ 15 < b.length := Or.inr hb
    constructor
    · rw [set_string_heap_max _ _ hp, new_max_length]
      have := growSize_gt (15 + 1) b.length (by omega)
      omega
    · simp only [EscadraString.isHeapBacked, decide_eq_true_eq]
      exact max_length_set_string_gt _ _ hp

/-- C1 witness at the 16-byte input `longBytesEx`. -/
theorem C1_witness :
    utf8Valid longBytesEx = true ∧
    ((EscadraString.new.set_string longBytesEx).get_string = some longBytesEx ∧
     (longBytesEx.length ≤ 15 →
       (EscadraString.new.set_string longBytesEx).max_length = 15 ∧
       (EscadraString.new.set_string longBytesEx).isHeapBacked = false) ∧
     (15 < longBytesEx.length →
       longBytesEx.length ≤ (EscadraString.new.set_string longBytesEx).max_length ∧
       (EscadraString.new.set_string longBytesEx).isHeapBacked = true)) :=
  ⟨by decide, C1_fresh_set_string_get_string longBytesEx (by decide)⟩

/-- C2: on the (re)allocation path, the resulting capacity is the smallest
value of the form `(previous_capacity + 1) * 2 ^ k - 1` that is at least the
new content length, and the allocated buffer is `capacity + 1` bytes. -/
theorem C2_growth_geometry (s : EscadraString) (b : List Nat)
    (hp : 15 < s.max_length ∨ 15 < b.length) :
    ∃ k, (s.set_string b).max_length = (s.max_length + 1) * 2 ^ k - 1 ∧
      b.length ≤ (s.set_string b).max_length ∧
      (∀ m, b.length ≤ (s.max_length + 1) * 2 ^ m - 1 →
        (s.set_string b).max_length ≤ (s.max_length + 1) * 2 ^ m - 1) ∧
      (s.set_string b).heapSize = (s.set_string b).max_length + 1 := by
  obtain ⟨k, hk⟩ := growSize_form (s.max_length + 1) b.length
  have hgt := growSize_gt (s.max_length + 1) b.length (by omega)
  have hle := growSize_le (s.max_length + 1) b.length
  refine ⟨k, ?_, ?_, ?_, ?_⟩
  · rw [set_string_heap_max s b hp, hk]
  · rw [set_string_heap_max s b hp]
    omega
  · intro m hm
    rw [set_string_heap_max s b hp]
    have hpow : 0 < (s.max_length + 1) * 2 ^ m := by positivity
    have hlt : b.length < (s.max_length + 1) * 2 ^ m := by omega
    have := growSize_le_pow (s.max_length + 1) b.length m (by omega) hlt
    omega
  · rw [set_string_heap_size s b hp, set_string_heap_max s b hp]
    omega

/-- C2 witness: growing a fresh value with the 16-byte `longBytesEx`. -/
theorem C2_witness :
    (15 < EscadraString.new.max_length ∨ 15 < longBytesEx.length) ∧
    (∃ k, (EscadraString.new.set_string longBytesEx).max_length =
        (EscadraString.new.max_length + 1) * 2 ^ k - 1 ∧
      longBytesEx.length ≤ (EscadraString.new.set_string longBytesEx).max_length ∧
      (∀ m, longBytesEx.length ≤ (EscadraString.new.max_length + 1) * 2 ^ m - 1 →
        (EscadraString.new.set_string longBytesEx).max_length ≤
          (EscadraString.new.max_length + 1) * 2 ^ m - 1) ∧
      (EscadraString.new.set_string longBytesEx).heapSize =
        (EscadraString.new.set_string longBytesEx).max_length + 1) :=
  ⟨by decide, C2_growth_geometry EscadraString.new longBytesEx (by decide)⟩

/-- C3: the terminator invariant — after construction and after every
`set_string` call, the byte at offset `length` in the active storage is 0. -/
theorem C3_terminator_invariant :
    EscadraString.new.terminatorOk ∧
    ∀ (s : EscadraString) (b : List Nat), (s.set_string b).terminatorOk := by
  constructor
  · rw [EscadraString.terminatorOk]
    norm_num [EscadraString.new]
  · intro s b
    rw [EscadraString.terminatorOk]
    by_cases hp : 15 < s.max_length ∨ 15 < b.length
    · rw [if_pos (max_length_set_string_gt s b hp), set_string_heap_heap s b hp,
        set_string_length s b]
      exact List.getElem?_concat_length b 0
    · have hmax := set_string_inline_max s b hp
      rw [if_neg (by rw [hmax]; exact fun h => hp (Or.inl h)),
        set_string_inline_chars s b hp, set_string_length s b,
        List.getElem?_append_right (le_refl b.length), Nat.sub_self,
        List.getElem?_replicate, if_pos (by omega)]

/-- C4: encoding an `EscadraString` to a plain text value and decoding it
back yields a value with the same `get_string` (structured-data adapter
round trip). -/
theorem C4_adapter_roundtrip (v : EscadraString) (b : List Nat)
    (h : intoString v = some b) :
    (fromString b).get_string = v.get_string := by
  rw [intoString] at h
  have hv : utf8Valid b = true := get_string_some_valid h
  rw [fromString, get_string_set_string EscadraString.new b hv]
  exact h.symm

/-- C4 witness: round-tripping the heap-backed `heapBanEx`. -/
theorem C4_witness :
    intoString heapBanEx = some shortBytesEx ∧
    (fromString shortBytesEx).get_string = heapBanEx.get_string :=
  ⟨by decide, C4_adapter_roundtrip heapBanEx shortBytesEx (by decide)⟩

/-- C5: setting a long content then a short one on a fresh value yields the
short content, and the storage stays heap-backed (never demotes to inline). -/
theorem C5_shrink_after_grow (long short : List Nat)
    (hl : 15 < long.length) (hs : short.length ≤ 15)
    (hv : utf8Valid short = true) :
    ((EscadraString.new.set_string long).set_string short).get_string =
      some short ∧
    ((EscadraString.new.set_string long).set_string short).isHeapBacked =
      true ∧
    15 < ((EscadraString.new.set_string long).set_string short).max_length := by
  have h1 : 15 < (EscadraString.new.set_string long).max_length :=
    max_length_set_string_gt _ _ (Or.inr hl)
  have h2 := max_length_set_string_gt (EscadraString.new.set_string long)
    short (Or.inl h1)
  refine ⟨get_string_set_string _ _ hv, ?_, h2⟩
  simp only [EscadraString.isHeapBacked, decide_eq_true_eq]
  exact h2

/-- C5 witness: `longBytesEx` (16 bytes) then `shortBytesEx` (3 bytes). -/
theorem C5_witness :
    15 < longBytesEx.length ∧ shortBytesEx.length ≤ 15 ∧
    utf8Valid shortBytesEx = true ∧
    (((EscadraString.new.set_string longBytesEx).set_string shortBytesEx).get_string =
        some shortBytesEx ∧
      ((EscadraString.new.set_string longBytesEx).set_string shortBytesEx).isHeapBacked =
        true ∧
      15 < ((EscadraString.new.set_string longBytesEx).set_string shortBytesEx).max_length) :=
  ⟨by decide, by decide, by decide,
    C5_shrink_after_grow longBytesEx shortBytesEx (by decide) (by decide) (by decide)⟩

/-- C6 (counterexample): at the concrete state `corruptEs`, whose stored
byte `0xFF` is not valid UTF-8, `get_string` hits the `unwrap` panic
(modelled by `none`) instead of returning a `DecodeError` value: the failure
is an abort, not an error surfaced to the caller, refuting the claim as
stated. -/
theorem C6_counterexample :
    utf8Valid corruptEs.activeBytes = false ∧ corruptEs.get_string = none := by
  decide

/-- C6 (amended): when the stored bytes in `[0, length)` are not valid text,
`get_string` panics (the `unwrap` on `from_utf8`, modelled by `none`) rather
than returning a `DecodeError` value; on valid text it returns the decoded
content with no side effects. -/
theorem C6_get_string_panic_on_invalid (s : EscadraString) :
    (utf8Valid s.activeBytes = true → s.get_string = some s.activeBytes) ∧
    (utf8Valid s.activeBytes = false → s.get_string = none) := by
  rw [EscadraString.get_string, EscadraString.activeBytes]
  by_cases hc : 15 < s.max_length
  · rw [if_pos hc, if_pos hc, utf8Decode]
    constructor <;> intro h <;> simp [h]
  · rw [if_neg hc, if_neg hc, utf8Decode]
    constructor <;> intro h <;> simp [h]

/-- C6 witness: the amended theorem at the fresh empty state (valid side). -/
theorem C6_witness :
    utf8Valid EscadraString.new.activeBytes = true ∧
    EscadraString.new.get_string = some EscadraString.new.activeBytes :=
  ⟨by decide, (C6_get_string_panic_on_invalid EscadraString.new).1 (by decide)⟩

/-- C8: equality, ordering and hashing are determined solely by
`get_string`: equality holds iff the contents coincide, `cmp` is the
lexicographic comparison of the contents, and equal contents feed the hasher
identical data — for any two values, whatever their representations. -/
theorem C8_value_semantics (a b : EscadraString) (x y : List Nat)
    (ha : a.get_string = some x) (hb : b.get_string = some y) :
    (esEq a b = some true ↔ x = y) ∧
    esCmp a b = some (lexCmp x y) ∧
    (lexCmp x y = Ordering.eq ↔ x = y) ∧
    (x = y → esHashInput a = esHashInput b) := by
  refine ⟨?_, ?_, lexCmp_eq_iff x y, ?_⟩
  · rw [esEq, ha, hb]
    simp
  · rw [esCmp, ha, hb]
  · intro hxy
    rw [esHashInput, esHashInput, ha, hb, hxy]

/-- C8 witness: an inline value and a heap-backed value with identical
content compare equal. -/
theorem C8_witness :
    (fromString shortBytesEx).get_string = some shortBytesEx ∧
    heapBanEx.get_string = some shortBytesEx ∧
    esEq (fromString shortBytesEx) heapBanEx = some true := by
  have h1 : (fromString shortBytesEx).get_string = some shortBytesEx := by decide
  have h2 : heapBanEx.get_string = some shortBytesEx := by decide
  exact ⟨h1, h2, (C8_value_semantics _ _ _ _ h1 h2).1.mpr rfl⟩

/-- C10: content containing interior zero bytes survives a
`set_string`/`get_string` round trip in full — reading uses the stored
`length`, never a terminator scan, so an embedded zero byte does not
truncate the content. -/
theorem C10_interior_zero_bytes (b : List Nat) (hv : utf8Valid b = true)
    (hz : 0 ∈ b) :
    (EscadraString.new.set_string b).get_string = some b :=
  get_string_set_string EscadraString.new b hv

/-- C10 witness at the 17-byte `zeroBytesEx` with a zero byte at index 1. -/
theorem C10_witness :
    utf8Valid zeroBytesEx = true ∧ 0 ∈ zeroBytesEx ∧
    (EscadraString.new.set_string zeroBytesEx).get_string = some zeroBytesEx :=
  ⟨by decide, by decide,
    C10_interior_zero_bytes zeroBytesEx (by decide) (by decide)⟩

end Highfleet
